import Mathlib

set_option maxRecDepth 10000

/-!
Verification of the CHIP-8 emulator sources (cpu.py, display/cli_display.py,
display/tkinter_display.py, display/abstract_display.py) against the natural
language specification. The interpreter state, the fetch / decode / execute
cycle and the sprite drawing loop are embedded as executable Lean functions;
machine integers are natural numbers reduced modulo 2 to the word width at
exactly the points where the numpy uint8 / uint16 dtypes wrap.
-/

namespace Chip8Emu

/-- self._columns of AbstractDisplay: the display is 64 pixels wide. -/
def columns : Nat := 64

/-- self._rows of AbstractDisplay: the display is 32 pixels tall. -/
def rows : Nat := 32

/-- The display grid: a list of 32 rows, each a list of 64 pixel values (0 or 1). -/
abbrev Grid := List (List Nat)

/-- np.zeros((self._rows, self._columns)): the all zero grid built by the display
constructor and by clear(). -/
def zero_grid : Grid := List.replicate rows (List.replicate columns 0)

/-- One observable call made by the interpreter core against the display surface
contract. A toggle records its coordinates and the boolean it returned. -/
inductive DispEvent where
  | set_pixel_ev (x y : Nat) (erased : Bool)
  | render_ev
deriving Repr, DecidableEq

/-- set_pixel of CliDisplay and TkinterDisplay (identical bodies):
self._display[y][x] ^= 1, then return not self._display[y][x], i.e. true iff
the freshly stored pixel value is 0. -/
def set_pixel (g : Grid) (x y : Nat) : Grid × Bool :=
  let row := g.getD y []
  let px := (row.getD x 0) ^^^ 1
  (g.set y (row.set x px), px == 0)

/-- The interpreter state of cpu.py together with the injected display object
(its grid plus a counter of render() calls). -/
structure Chip8 where
  memory : List Nat
  index : Nat
  stack : List Nat
  vars : List Nat
  program_counter : Nat
  delay_timer : Nat
  sound_timer : Nat
  grid : Grid
  renderCount : Nat
deriving Repr, DecidableEq

/-- A read of one memory cell: the numpy array has dtype uint8, so the value
read is always below 256. -/
def mem_read (s : Chip8) (addr : Nat) : Nat :=
  s.memory.getD addr 0 % 256

/-- _load_into_memory: for i, p in enumerate(payload): self._memory[offset + i] = p,
rendered as a recursion over the payload that stores one byte per increasing
address. The store into the uint8 array truncates modulo 256. -/
def load_into_memory (mem : List Nat) (payload : List Nat) (offset : Nat) : List Nat :=
  match payload with
  | [] => mem
  | p :: rest => load_into_memory (mem.set offset (p % 256)) rest (offset + 1)

/-- The 80 byte font table written into memory by the constructor of cpu.py. -/
def font_data : List Nat :=
  [0xF0, 0x90, 0x90, 0x90, 0xF0,
   0x20, 0x60, 0x20, 0x20, 0x70,
   0xF0, 0x10, 0xF0, 0x80, 0xF0,
   0xF0, 0x10, 0xF0, 0x10, 0xF0,
   0x90, 0x90, 0xF0, 0x10, 0x10,
   0xF0, 0x80, 0xF0, 0x10, 0xF0,
   0xF0, 0x80, 0xF0, 0x90, 0xF0,
   0xF0, 0x10, 0x20, 0x40, 0x40,
   0xF0, 0x90, 0xF0, 0x90, 0xF0,
   0xF0, 0x90, 0xF0, 0x10, 0xF0,
   0xF0, 0x90, 0xF0, 0x90, 0x90,
   0xE0, 0x90, 0xE0, 0x90, 0xE0,
   0xF0, 0x80, 0x80, 0x80, 0xF0,
   0xE0, 0x90, 0x90, 0x90, 0xE0,
   0xF0, 0x80, 0xF0, 0x80, 0xF0,
   0xF0, 0x80, 0xF0, 0x80, 0x80]

/-- The state built by the Chip8 constructor with a freshly constructed display:
4096 zero bytes of memory with the font table loaded at address 0, zero
registers and timers, program counter 0x200, empty stack, zero grid. -/
def initChip8 : Chip8 :=
  { memory := load_into_memory (List.replicate 4096 0) font_data 0
    index := 0
    stack := []
    vars := List.replicate 16 0
    program_counter := 0x200
    delay_timer := 0
    sound_timer := 0
    grid := zero_grid
    renderCount := 0 }

/-- _fetch of cpu.py: read the byte at the program counter as the high byte,
shift it left by 8, read the byte at program counter + 1 as the low byte, or
them together, and leave the program counter advanced by 2. -/
def fetch (s : Chip8) : Chip8 × Nat :=
  let hi := mem_read s s.program_counter
  let lo := mem_read s (s.program_counter + 1)
  ({ s with program_counter := s.program_counter + 2 }, (hi <<< 0x8) ||| lo)

/-- The body of one executed toggle of the draw inner loop: the pixel
coordinates are read from the current variable registers (uint8 additions),
the pixel is toggled, and the returned erasure flag is stored into variable
register 0xF. The second component is the display call that was made. -/
def draw_step (x y r c : Nat) (st : Chip8) : Chip8 × DispEvent :=
  let px := (st.vars.getD x 0 + c) % 256
  let py := (st.vars.getD y 0 + r) % 256
  let res := set_pixel st.grid px py
  ({ st with
     grid := res.1
     vars := st.vars.set 0xF (if res.2 then 1 else 0) },
   DispEvent.set_pixel_ev px py res.2)

/-- The inner loop of _display_draw over the 8 bits of one sprite byte, at row r,
starting at bit column c with rem iterations left. Each iteration tests
sprite & 0x0080 and performs a toggle on a set bit; the sprite byte is then
shifted left by 1 inside uint8. The list collects the display calls made. -/
def draw_bits (x y r : Nat) : Nat → Nat → Nat → Chip8 → Chip8 × List DispEvent
  | _, _, 0, st => (st, [])
  | c, sprite, rem + 1, st =>
    if sprite &&& 0x0080 ≠ 0 then
      let step := draw_step x y r c st
      let rest := draw_bits x y r (c + 1) ((sprite <<< 1) % 256) rem step.1
      (rest.1, step.2 :: rest.2)
    else
      draw_bits x y r (c + 1) ((sprite <<< 1) % 256) rem st

/-- The outer loop of _display_draw over sprite rows, starting at row r with rem
rows left: each row fetches the sprite byte at index + r (a uint16 addition)
and runs the 8 bit inner loop. -/
def draw_rows (x y : Nat) : Nat → Nat → Chip8 → Chip8 × List DispEvent
  | _, 0, st => (st, [])
  | r, rem + 1, st =>
    let sprite := mem_read st ((st.index + r) % 65536)
    let res1 := draw_bits x y r 0 sprite 8 st
    let res2 := draw_rows x y (r + 1) rem res1.1
    (res2.1, res1.2 ++ res2.2)

/-- _display_draw of cpu.py: run the row loop for num_bytes rows starting at row
0, then call self._display.render() exactly once. -/
def display_draw (s : Chip8) (x y num_bytes : Nat) : Chip8 × List DispEvent :=
  let res := draw_rows x y 0 num_bytes s
  ({ res.1 with renderCount := res.1.renderCount + 1 }, res.2 ++ [DispEvent.render_ev])

/-- _decode_and_execute of cpu.py. The raise of RuntimeError is modelled as
Except.error carrying the formatted message; self._display.clear() replaces the
grid by the zero grid. -/
def decode_and_execute (s : Chip8) (instruction : Nat) : Except String Chip8 :=
  let first_nibble := instruction &&& 0xF000
  let x := (instruction &&& 0x0F00) >>> 8
  let y := (instruction &&& 0x00F0) >>> 4
  if first_nibble == 0x0000 then
    if instruction == 0x00E0 then
      Except.ok { s with grid := zero_grid }
    else
      Except.ok s
  else if first_nibble == 0x1000 then
    Except.ok { s with program_counter := instruction &&& 0x0FFF }
  else if first_nibble == 0x6000 then
    Except.ok { s with vars := s.vars.set x ((instruction &&& 0x00FF) % 256) }
  else if first_nibble == 0x7000 then
    Except.ok
      { s with vars := s.vars.set x ((s.vars.getD x 0 + (instruction &&& 0x00FF)) % 256) }
  else if first_nibble == 0xA000 then
    Except.ok { s with index := instruction &&& 0x0FFF }
  else if first_nibble == 0xD000 then
    Except.ok (display_draw s x y (instruction &&& 0x000F)).1
  else
    Except.error ("Unknown instruction: " ++ toString instruction)

/-- Forgets the erasure result of a display event: the coordinates of a toggle,
or none for a render call. -/
def eventShape : DispEvent → Option (Nat × Nat)
  | DispEvent.set_pixel_ev px py _ => some (px, py)
  | DispEvent.render_ev => none

/-- Modelled from the spec words for one sprite row: the byte is 8 horizontal
pixels, most significant bit first, and each set bit at column c toggles the
pixel at (vx + c, vy + r). -/
def spec_row_toggles (byte vx vy r : Nat) : List (Nat × Nat) :=
  ((List.range 8).filter (fun c => byte.testBit (7 - c))).map (fun c => (vx + c, vy + r))

/-- Modelled from the spec words for a whole draw: each row r below n uses the
memory byte at index + r, so exactly the n consecutive bytes starting at the
index register are consumed. -/
def spec_draw_toggles (s : Chip8) (x y n : Nat) : List (Nat × Nat) :=
  ((List.range n).map (fun r =>
    spec_row_toggles (mem_read s (s.index + r))
      (s.vars.getD x 0) (s.vars.getD y 0) r)).flatten

/-- The pixel coordinates the draw inner loop will toggle, as a pure function
of the coordinate bases vx and vy, the row r, the loop counter c, the current
sprite byte and the remaining iteration count: the same countdown as draw_bits
with the interpreter state projected away. -/
def bit_shapes (vx vy r : Nat) : Nat → Nat → Nat → List (Option (Nat × Nat))
  | _, _, 0 => []
  | c, sprite, rem + 1 =>
    if sprite &&& 0x0080 ≠ 0 then
      some ((vx + c) % 256, (vy + r) % 256) :: bit_shapes vx vy r (c + 1) ((sprite <<< 1) % 256) rem
    else
      bit_shapes vx vy r (c + 1) ((sprite <<< 1) % 256) rem

/-- The collision flag value after observing one display event when it was v
before: a toggle overwrites the flag with its own erasure result, a render call
leaves it alone. -/
def collision_val (v : Nat) : DispEvent → Nat
  | DispEvent.set_pixel_ev _ _ er => if er then 1 else 0
  | DispEvent.render_ev => v

/-- The collision flag produced by a sequence of display events starting from v0:
the erasure result of the last toggle performed, or v0 when no toggle occurs. -/
def lastCollision (v0 : Nat) (tr : List DispEvent) : Nat :=
  tr.foldl collision_val v0

/-- A state whose program area holds the bytes 0x12 0x34 at the initial program
counter. -/
def fetch_demo_state : Chip8 :=
  { initChip8 with memory := load_into_memory initChip8.memory [0x12, 0x34] 0x200 }

/-- A state with the one byte sprite 0xFF placed at address 0x300 and the index
register pointing at it; variable registers 0 and 1 (the draw coordinates used
below) hold 0, so the sprite lands at the empty top left corner. -/
def c1_state : Chip8 :=
  { initChip8 with
      memory := load_into_memory initChip8.memory [0xFF] 0x300
      index := 0x300 }

/-- The state after drawing the 0xFF sprite once at (0, 0). -/
def c1_after1 : Chip8 := (display_draw c1_state 0 1 1).1

/-- The state after drawing the 0xFF sprite a second time at (0, 0). -/
def c1_after2 : Chip8 := (display_draw c1_after1 0 1 1).1

/-- A state for exercising a draw of two font rows: the index register points at
the font glyph 0 (bytes 0xF0, 0x90) and the draw coordinates in variable
registers 0 and 1 are 5 and 3. -/
def c3_demo_state : Chip8 :=
  { initChip8 with
      index := 0
      vars := (List.replicate 16 0).set 0 5 |>.set 1 3 }

/-- The parts of the interpreter state that a draw never touches before its
final render call: everything except the grid and variable register 0xF. -/
structure FrameEq (a b : Chip8) : Prop where
  mem : a.memory = b.memory
  idx : a.index = b.index
  stk : a.stack = b.stack
  pc : a.program_counter = b.program_counter
  dt : a.delay_timer = b.delay_timer
  snd : a.sound_timer = b.sound_timer
  rc : a.renderCount = b.renderCount
  len : a.vars.length = b.vars.length
  vreg : ∀ i, i ≠ 15 → a.vars.getD i 0 = b.vars.getD i 0

/-- A state whose variable register 2 holds 0xFF, for exercising the wraparound
of the add immediate instruction. -/
def c5_state : Chip8 := { initChip8 with vars := (List.replicate 16 0).set 2 0xFF }

/-- A state whose index register points at the all zero program area, so a draw
reads only zero sprite bytes. -/
def c10_state : Chip8 := { initChip8 with index := 0x200 }

/-- The register operand x of an instruction word: the low nibble of the high
byte, bits 11 to 8. -/
def reg_x (instruction : Nat) : Nat := (instruction &&& 0x0F00) >>> 8

/-- The immediate byte operand kk of an instruction word: its low 8 bits. -/
def imm_kk (instruction : Nat) : Nat := instruction &&& 0x00FF

/-- The address operand nnn of an instruction word: its low 12 bits. -/
def addr_nnn (instruction : Nat) : Nat := instruction &&& 0x0FFF

/-!  Generic helper lemmas about lists and machine arithmetic. -/

theorem getD_set_self {α : Type} (l : List α) (i : Nat) (a d : α) (h : i < l.length) :
    (l.set i a).getD i d = a := by
  simp [List.getD_eq_getElem?_getD, List.getElem?_set_self h]

theorem getD_set_ne {α : Type} (l : List α) (i j : Nat) (a d : α) (h : i ≠ j) :
    (l.set i a).getD j d = l.getD j d := by
  simp [List.getD_eq_getElem?_getD, List.getElem?_set_ne h]

theorem lor_shiftLeft_add {x y k : Nat} (hy : y < 2 ^ k) :
    (x <<< k) ||| y = x * 2 ^ k + y := by
  apply Nat.eq_of_testBit_eq
  intro i
  rw [Nat.testBit_or, Nat.testBit_shiftLeft]
  rcases Nat.lt_or_ge i k with hik | hik
  · have hd : decide (k ≤ i) = false := decide_eq_false (by omega)
    have hpow : (2 : Nat) ^ k = 2 ^ i * (2 ^ (k - i - 1) * 2) := by
      rw [← Nat.pow_succ, ← Nat.pow_add]
      congr 1
      omega
    have h1 : x * 2 ^ k = 2 ^ i * (x * 2 ^ (k - i - 1) * 2) := by
      rw [hpow]
      ring
    have heq : (x * 2 ^ k + y) / 2 ^ i % 2 = y / 2 ^ i % 2 := by
      rw [h1, Nat.mul_add_div (Nat.two_pow_pos i), Nat.add_comm, Nat.add_mul_mod_self_right]
    rw [hd]
    simp only [Bool.false_and, Bool.false_or]
    rw [Nat.testBit_to_div_mod, Nat.testBit_to_div_mod, heq]
  · have hd : decide (k ≤ i) = true := decide_eq_true hik
    have h2 : y < 2 ^ i := Nat.lt_of_lt_of_le hy (Nat.pow_le_pow_right (by omega) hik)
    have hyb : y.testBit i = false := Nat.testBit_lt_two_pow h2
    have heq : (x * 2 ^ k + y) / 2 ^ i = x / 2 ^ (i - k) := by
      have h3 : (2 : Nat) ^ i = 2 ^ k * 2 ^ (i - k) := by
        rw [← Nat.pow_add]
        congr 1
        omega
      rw [h3, ← Nat.div_div_eq_div_mul, Nat.mul_comm x, Nat.mul_add_div (Nat.two_pow_pos k),
        Nat.div_eq_of_lt hy, Nat.add_zero]
    rw [hd]
    simp only [Bool.true_and, hyb, Bool.or_false]
    rw [Nat.testBit_to_div_mod, Nat.testBit_to_div_mod, heq]

theorem and_high_nibble {instr : Nat} (hw : instr < 65536) :
    instr &&& 0xF000 = (instr >>> 12) <<< 12 := by
  have h15 : (0xF000 : Nat) = (2 ^ 4 - 1) <<< 12 := by decide
  rw [h15]
  apply Nat.eq_of_testBit_eq
  intro i
  rw [Nat.testBit_and, Nat.testBit_shiftLeft, Nat.testBit_shiftLeft, Nat.testBit_shiftRight,
    Nat.testBit_two_pow_sub_one]
  by_cases h12 : 12 ≤ i
  · have hd : decide (12 ≤ i) = true := decide_eq_true h12
    have hi : 12 + (i - 12) = i := by omega
    rw [hd, hi]
    by_cases h16 : i < 16
    · have hd4 : decide (i - 12 < 4) = true := decide_eq_true (by omega)
      rw [hd4]
      simp
    · have hlt : instr < 2 ^ i := by
        have h1 : (2 : Nat) ^ 16 ≤ 2 ^ i := Nat.pow_le_pow_right (by omega) (by omega)
        have h2 : (2 : Nat) ^ 16 = 65536 := by norm_num
        omega
      have hxb : instr.testBit i = false := Nat.testBit_lt_two_pow hlt
      rw [hxb]
      simp
  · have hd : decide (12 ≤ i) = false := decide_eq_false h12
    rw [hd]
    simp

theorem shiftLeft12_inj {a b : Nat} (h : a <<< 12 = b <<< 12) : a = b := by
  rw [Nat.shiftLeft_eq, Nat.shiftLeft_eq] at h
  omega

theorem load_into_memory_eq :
    ∀ (payload mem : List Nat) (offset : Nat), offset + payload.length ≤ mem.length →
      load_into_memory mem payload offset =
        mem.take offset ++ payload.map (fun p => p % 256) ++ mem.drop (offset + payload.length)
  | [], mem, offset, h => by
    simp only [load_into_memory, List.map_nil, List.append_nil, List.length_nil, Nat.add_zero]
    rw [List.take_append_drop]
  | p :: rest, mem, offset, h => by
    have hlen : offset < mem.length := by
      simp only [List.length_cons] at h
      omega
    have hrec := load_into_memory_eq rest (mem.set offset (p % 256)) (offset + 1)
      (by simp only [List.length_set, List.length_cons] at h ⊢; omega)
    have hset : mem.set offset (p % 256) =
        mem.take offset ++ (p % 256) :: mem.drop (offset + 1) := by
      rw [List.set_eq_take_append_cons_drop, if_pos hlen]
    have htakelen : (mem.take offset).length = offset := List.length_take_of_le (by omega)
    rw [load_into_memory, hrec, hset]
    have htake : (mem.take offset ++ (p % 256) :: mem.drop (offset + 1)).take (offset + 1) =
        mem.take offset ++ [p % 256] := by
      rw [List.take_append_eq_append_take, List.take_of_length_le (by omega), htakelen]
      congr 1
      have : offset + 1 - offset = 1 := by omega
      rw [this]
      rfl
    have hdrop : (mem.take offset ++ (p % 256) :: mem.drop (offset + 1)).drop
        (offset + 1 + rest.length) =
        mem.drop (offset + (rest.length + 1)) := by
      have h1 : offset + 1 + rest.length = (mem.take offset).length + (1 + rest.length) := by
        omega
      rw [h1, List.drop_append]
      have h2 : (1 + rest.length) = rest.length + 1 := by omega
      rw [h2]
      show (mem.drop (offset + 1)).drop rest.length = _
      rw [List.drop_drop]
      congr 1
      omega
    rw [htake, hdrop]
    simp [List.append_assoc]

/-- C9: after interpreter construction, bytes 0 through 79 of memory exactly
equal the documented 80 byte font table (16 glyphs of 5 bytes for the
hexadecimal digits 0 to F, starting F0 90 90 90 F0 for glyph 0 and ending
F0 80 F0 80 80 for glyph F), and all remaining memory bytes are zero. -/
theorem c9_font_integrity :
    initChip8.memory =
      [0xF0, 0x90, 0x90, 0x90, 0xF0,
       0x20, 0x60, 0x20, 0x20, 0x70,
       0xF0, 0x10, 0xF0, 0x80, 0xF0,
       0xF0, 0x10, 0xF0, 0x10, 0xF0,
       0x90, 0x90, 0xF0, 0x10, 0x10,
       0xF0, 0x80, 0xF0, 0x10, 0xF0,
       0xF0, 0x80, 0xF0, 0x90, 0xF0,
       0xF0, 0x10, 0x20, 0x40, 0x40,
       0xF0, 0x90, 0xF0, 0x90, 0xF0,
       0xF0, 0x90, 0xF0, 0x10, 0xF0,
       0xF0, 0x90, 0xF0, 0x90, 0x90,
       0xE0, 0x90, 0xE0, 0x90, 0xE0,
       0xF0, 0x80, 0x80, 0x80, 0xF0,
       0xE0, 0x90, 0x90, 0x90, 0xE0,
       0xF0, 0x80, 0xF0, 0x80, 0xF0,
       0xF0, 0x80, 0xF0, 0x80, 0x80] ++ List.replicate 4016 0 ∧
    initChip8.memory.length = 4096 := by
  have hmem : initChip8.memory =
      (List.replicate 4096 0).take 0 ++ font_data.map (fun p => p % 256) ++
        (List.replicate 4096 0).drop (0 + font_data.length) := by
    exact load_into_memory_eq font_data (List.replicate 4096 0) 0
      (by rw [List.length_replicate]; norm_num [font_data])
  have hfl : font_data.length = 80 := by decide
  have hmem2 : initChip8.memory = font_data.map (fun p => p % 256) ++ List.replicate 4016 0 := by
    rw [hmem, hfl, List.take_zero, List.nil_append, List.drop_replicate]
  constructor
  · rw [hmem2]
    exact congrArg (fun l => l ++ List.replicate 4016 0) (by decide)
  · rw [hmem2, List.length_append, List.length_map, hfl, List.length_replicate]

/-- C7: executing instruction 0x00E0 on any interpreter state (in particular any
state reached by a sequence of draws) clears every cell of the 64 by 32 grid to
0 and alters no register: variable registers, index register and both timers
are untouched. -/
theorem c7_clear_screen (s : Chip8) :
    decode_and_execute s 0x00E0 = Except.ok { s with grid := zero_grid } ∧
    (∀ r, r < 32 → ∀ c, c < 64 → (zero_grid.getD r []).getD c 0 = 0) ∧
    ({ s with grid := zero_grid }).vars = s.vars ∧
    ({ s with grid := zero_grid }).index = s.index ∧
    ({ s with grid := zero_grid }).delay_timer = s.delay_timer ∧
    ({ s with grid := zero_grid }).sound_timer = s.sound_timer := by
  refine ⟨?_, by decide, rfl, rfl, rfl, rfl⟩
  rfl

theorem c7_clear_screen_witness :
    decode_and_execute initChip8 0x00E0 = Except.ok { initChip8 with grid := zero_grid } ∧
    (zero_grid.getD 3 []).getD 7 0 = 0 :=
  ⟨(c7_clear_screen initChip8).1, (c7_clear_screen initChip8).2.1 3 (by decide) 7 (by decide)⟩

/-- C8: any instruction word with high nibble 0x1 sets the program counter to
the low 12 bits of the word and changes nothing else: memory, variable
registers, index register, call stack, timers and display are unchanged. -/
theorem c8_jump (s : Chip8) (instr : Nat) (h : instr &&& 0xF000 = 0x1000) :
    decode_and_execute s instr = Except.ok { s with program_counter := addr_nnn instr } ∧
    ({ s with program_counter := addr_nnn instr }).memory = s.memory ∧
    ({ s with program_counter := addr_nnn instr }).vars = s.vars ∧
    ({ s with program_counter := addr_nnn instr }).index = s.index ∧
    ({ s with program_counter := addr_nnn instr }).stack = s.stack ∧
    ({ s with program_counter := addr_nnn instr }).delay_timer = s.delay_timer ∧
    ({ s with program_counter := addr_nnn instr }).sound_timer = s.sound_timer ∧
    ({ s with program_counter := addr_nnn instr }).grid = s.grid ∧
    ({ s with program_counter := addr_nnn instr }).renderCount = s.renderCount := by
  refine ⟨?_, rfl, rfl, rfl, rfl, rfl, rfl, rfl, rfl⟩
  simp [decode_and_execute, h, addr_nnn]

theorem c8_jump_witness :
    decode_and_execute initChip8 0x1ABC = Except.ok { initChip8 with program_counter := 0x0ABC } := by
  have h := (c8_jump initChip8 0x1ABC (by decide)).1
  rw [show addr_nnn 0x1ABC = 0x0ABC from by decide] at h
  exact h

/-- C5: for any state and any instruction word with high nibble 0x7 (add
immediate), the execution succeeds, register x becomes
(old value + kk) mod 256, and the flag register 0xF is untouched when x is not
0xF. -/
theorem c5_add_immediate (s : Chip8) (instr : Nat) (h7 : instr &&& 0xF000 = 0x7000)
    (hlen : s.vars.length = 16) :
    decode_and_execute s instr =
      Except.ok
        { s with
          vars := s.vars.set (reg_x instr) ((s.vars.getD (reg_x instr) 0 + imm_kk instr) % 256) } ∧
    (s.vars.set (reg_x instr) ((s.vars.getD (reg_x instr) 0 + imm_kk instr) % 256)).getD
        (reg_x instr) 0 = (s.vars.getD (reg_x instr) 0 + imm_kk instr) % 256 ∧
    (reg_x instr ≠ 0xF →
      (s.vars.set (reg_x instr) ((s.vars.getD (reg_x instr) 0 + imm_kk instr) % 256)).getD
        0xF 0 = s.vars.getD 0xF 0) := by
  have hxlt : reg_x instr < 16 := by
    have h1 : instr &&& 0x0F00 ≤ 0x0F00 := Nat.and_le_right
    have h2 : reg_x instr = (instr &&& 0x0F00) / 256 := by
      rw [reg_x, Nat.shiftRight_eq_div_pow]
    rw [h2]
    omega
  refine ⟨?_, ?_, ?_⟩
  · simp [decode_and_execute, h7, reg_x, imm_kk]
  · exact getD_set_self _ _ _ _ (by omega)
  · intro hne
    exact getD_set_ne _ _ _ _ _ hne

theorem c5_add_immediate_witness :
    decode_and_execute c5_state 0x7202 =
      Except.ok { c5_state with vars := c5_state.vars.set 2 0x01 } := by
  have h := (c5_add_immediate c5_state 0x7202 (by decide) (by decide)).1
  rw [show reg_x 0x7202 = 2 from by decide] at h
  rw [show (c5_state.vars.getD 2 0 + imm_kk 0x7202) % 256 = 0x01 from by decide] at h
  exact h

/-- C6: on a well formed 32 by 64 grid boxed with 0/1 cells, set_pixel toggles
exactly the bit at row y, column x by xor with 1, leaves all other cells
unchanged, and returns true iff the new value of that pixel is 0, which happens
iff the pixel was previously lit. -/
theorem c6_set_pixel_toggle (g : Grid) (x y : Nat) (hx : x < 64) (hy : y < 32)
    (hrows : g.length = 32) (hcols : ∀ row ∈ g, row.length = 64) :
    ((set_pixel g x y).1.getD y []).getD x 0 = ((g.getD y []).getD x 0) ^^^ 1 ∧
    (∀ r c : Nat, r ≠ y ∨ c ≠ x →
      ((set_pixel g x y).1.getD r []).getD c 0 = (g.getD r []).getD c 0) ∧
    ((set_pixel g x y).2 = true ↔ ((set_pixel g x y).1.getD y []).getD x 0 = 0) ∧
    ((set_pixel g x y).2 = true ↔ (g.getD y []).getD x 0 = 1) := by
  have hylen : y < g.length := by omega
  have hrowget : g.getD y [] = g[y] := by
    rw [List.getD_eq_getElem?_getD, List.getElem?_eq_getElem hylen]
    rfl
  have hrowlen : (g.getD y []).length = 64 := by
    rw [hrowget]
    exact hcols _ (List.getElem_mem hylen)
  have hxlen : x < (g.getD y []).length := by omega
  have hmain : ((set_pixel g x y).1.getD y []).getD x 0 = ((g.getD y []).getD x 0) ^^^ 1 := by
    simp only [set_pixel]
    rw [getD_set_self _ _ _ _ hylen, getD_set_self _ _ _ _ hxlen]
  refine ⟨hmain, ?_, ?_, ?_⟩
  · intro r c hrc
    simp only [set_pixel]
    by_cases hr : r = y
    · subst hr
      have hc : c ≠ x := by tauto
      rw [getD_set_self _ _ _ _ hylen, getD_set_ne _ _ _ _ _ (Ne.symm hc)]
    · rw [getD_set_ne _ _ _ _ _ (Ne.symm hr)]
  · rw [hmain]
    simp only [set_pixel]
    exact beq_iff_eq
  · simp only [set_pixel]
    rw [beq_iff_eq, Nat.xor_eq_zero]

theorem c6_set_pixel_toggle_witness :
    ((set_pixel zero_grid 3 5).1.getD 5 []).getD 3 0 = ((zero_grid.getD 5 []).getD 3 0) ^^^ 1 :=
  (c6_set_pixel_toggle zero_grid 3 5 (by decide) (by decide) (by decide) (by decide)).1

/-- C4: for any state whose program counter p (with p and p + 1 in bounds)
addresses bytes b1 and b2, fetch returns the big endian combination
256 * b1 + b2 (one 16 bit word) and leaves the program counter at p + 2 with
memory unchanged. -/
theorem c4_fetch (s : Chip8) (b1 b2 : Nat) (_hpc : s.program_counter + 1 < 4096)
    (hb1 : s.memory.getD s.program_counter 0 = b1)
    (hb2 : s.memory.getD (s.program_counter + 1) 0 = b2)
    (h1 : b1 < 256) (h2 : b2 < 256) :
    (fetch s).2 = 256 * b1 + b2 ∧ (fetch s).2 < 65536 ∧
    (fetch s).1.program_counter = s.program_counter + 2 ∧
    (fetch s).1.memory = s.memory := by
  have hread1 : mem_read s s.program_counter = b1 := by
    rw [mem_read, hb1, Nat.mod_eq_of_lt h1]
  have hread2 : mem_read s (s.program_counter + 1) = b2 := by
    rw [mem_read, hb2, Nat.mod_eq_of_lt h2]
  have hval : (fetch s).2 = 256 * b1 + b2 := by
    show (mem_read s s.program_counter <<< 0x8) ||| mem_read s (s.program_counter + 1) = _
    rw [hread1, hread2, lor_shiftLeft_add (show b2 < 2 ^ 8 by omega)]
    ring
  exact ⟨hval, by omega, rfl, rfl⟩

theorem c4_fetch_witness :
    (fetch fetch_demo_state).2 = 0x1234 ∧
    (fetch fetch_demo_state).1.program_counter = 0x202 := by
  have h := c4_fetch fetch_demo_state 0x12 0x34 (by decide) (by decide) (by decide)
    (by decide) (by decide)
  exact ⟨h.1.trans (by decide), h.2.2.1.trans (by decide)⟩

/-- C2 (amended): an instruction word whose high nibble is outside
{0x0, 0x1, 0x6, 0x7, 0xA, 0xD} makes decode and execute signal an unrecoverable
error that carries the offending 16 bit value, so execution cannot continue
past it; a 0x0 prefixed word other than 0x00E0, however, is silently ignored:
it returns the state unchanged and raises no error. -/
theorem c2_unknown_instruction (s : Chip8) (instr : Nat) (hw : instr < 65536) :
    (instr >>> 12 ≠ 0x0 → instr >>> 12 ≠ 0x1 → instr >>> 12 ≠ 0x6 → instr >>> 12 ≠ 0x7 →
      instr >>> 12 ≠ 0xA → instr >>> 12 ≠ 0xD →
      decode_and_execute s instr = Except.error ("Unknown instruction: " ++ toString instr)) ∧
    (instr >>> 12 = 0x0 → instr ≠ 0x00E0 → decode_and_execute s instr = Except.ok s) := by
  have hmask : instr &&& 0xF000 = (instr >>> 12) <<< 12 := and_high_nibble hw
  have hqlt : instr >>> 12 < 16 := by
    rw [Nat.shiftRight_eq_div_pow]
    omega
  constructor
  · intro h0 h1 h6 h7 hA hD
    obtain ⟨q, hq⟩ : ∃ q, instr >>> 12 = q := ⟨_, rfl⟩
    rw [hq] at hmask hqlt h0 h1 h6 h7 hA hD
    interval_cases q <;> simp_all [decode_and_execute]
  · intro h0 hne
    rw [h0] at hmask
    simp [decode_and_execute, hmask, hne]

/-- The claim as frozen is false on the code: the 0x0 prefixed word 0x0123 is
not 0x00E0, yet decode and execute returns the state unchanged instead of
signalling an error. -/
theorem c2_unknown_instruction_counterexample :
    decode_and_execute initChip8 0x0123 = Except.ok initChip8 ∧
    (0x0123 : Nat) &&& 0xF000 = 0x0000 ∧ (0x0123 : Nat) ≠ 0x00E0 :=
  ⟨rfl, rfl, by decide⟩

theorem c2_unknown_instruction_witness :
    decode_and_execute initChip8 0x8123 =
      Except.error ("Unknown instruction: " ++ toString (0x8123 : Nat)) := by
  exact (c2_unknown_instruction initChip8 0x8123 (by decide)).1 (by decide) (by decide)
    (by decide) (by decide) (by decide) (by decide)

theorem frameEq_refl (a : Chip8) : FrameEq a a :=
  ⟨rfl, rfl, rfl, rfl, rfl, rfl, rfl, rfl, fun _ _ => rfl⟩

theorem frameEq_trans {a b c : Chip8} (h1 : FrameEq a b) (h2 : FrameEq b c) : FrameEq a c :=
  ⟨h1.mem.trans h2.mem, h1.idx.trans h2.idx, h1.stk.trans h2.stk, h1.pc.trans h2.pc,
   h1.dt.trans h2.dt, h1.snd.trans h2.snd, h1.rc.trans h2.rc, h1.len.trans h2.len,
   fun i hi => (h1.vreg i hi).trans (h2.vreg i hi)⟩

theorem draw_step_frame (x y r c : Nat) (st : Chip8) : FrameEq (draw_step x y r c st).1 st := by
  refine ⟨rfl, rfl, rfl, rfl, rfl, rfl, rfl, ?_, ?_⟩
  · simp [draw_step]
  · intro i hi
    simp only [draw_step]
    exact getD_set_ne _ _ _ _ _ (Ne.symm hi)

theorem draw_bits_frame (x y r : Nat) :
    ∀ rem c sprite st, FrameEq (draw_bits x y r c sprite rem st).1 st := by
  intro rem
  induction rem with
  | zero =>
    intro c sprite st
    exact frameEq_refl st
  | succ rem ih =>
    intro c sprite st
    simp only [draw_bits]
    split
    · exact frameEq_trans (ih _ _ _) (draw_step_frame x y r c st)
    · exact ih _ _ _

theorem draw_rows_frame (x y : Nat) :
    ∀ rem r st, FrameEq (draw_rows x y r rem st).1 st := by
  intro rem
  induction rem with
  | zero =>
    intro r st
    exact frameEq_refl st
  | succ rem ih =>
    intro r st
    simp only [draw_rows]
    exact frameEq_trans (ih _ _) (draw_bits_frame x y r 8 0 _ st)

theorem lastCollision_append (v : Nat) (a b : List DispEvent) :
    lastCollision v (a ++ b) = lastCollision (lastCollision v a) b := by
  simp [lastCollision]

theorem draw_bits_vf (x y r : Nat) :
    ∀ rem c sprite st, st.vars.length = 16 →
      (draw_bits x y r c sprite rem st).1.vars.getD 15 0 =
        lastCollision (st.vars.getD 15 0) (draw_bits x y r c sprite rem st).2 := by
  intro rem
  induction rem with
  | zero =>
    intro c sprite st _
    rfl
  | succ rem ih =>
    intro c sprite st h
    simp only [draw_bits]
    split
    · have hlen : (draw_step x y r c st).1.vars.length = 16 :=
        (draw_step_frame x y r c st).len.trans h
      have hstep : (draw_step x y r c st).1.vars.getD 15 0 =
          collision_val (st.vars.getD 15 0) (draw_step x y r c st).2 := by
        simp only [draw_step, collision_val]
        exact getD_set_self _ _ _ _ (by omega)
      rw [ih (c + 1) ((sprite <<< 1) % 256) (draw_step x y r c st).1 hlen, hstep]
      rfl
    · exact ih _ _ _ h

theorem draw_rows_vf (x y : Nat) :
    ∀ rem r st, st.vars.length = 16 →
      (draw_rows x y r rem st).1.vars.getD 15 0 =
        lastCollision (st.vars.getD 15 0) (draw_rows x y r rem st).2 := by
  intro rem
  induction rem with
  | zero =>
    intro r st _
    rfl
  | succ rem ih =>
    intro r st h
    simp only [draw_rows]
    have hlen1 : (draw_bits x y r 0 (mem_read st ((st.index + r) % 65536)) 8 st).1.vars.length
        = 16 := (draw_bits_frame x y r 8 0 _ st).len.trans h
    rw [ih (r + 1) _ hlen1, draw_bits_vf x y r 8 0 _ st h, lastCollision_append]

theorem display_draw_vf (s : Chip8) (x y n : Nat) (h : s.vars.length = 16) :
    (display_draw s x y n).1.vars.getD 15 0 =
      lastCollision (s.vars.getD 15 0) (display_draw s x y n).2 := by
  simp only [display_draw]
  rw [lastCollision_append]
  exact draw_rows_vf x y n 0 s h

theorem draw_bits_zero_sprite (x y r : Nat) :
    ∀ rem c st, draw_bits x y r c 0 rem st = (st, []) := by
  intro rem
  induction rem with
  | zero =>
    intro c st
    rfl
  | succ rem ih =>
    intro c st
    simp only [draw_bits]
    rw [if_neg (by decide)]
    exact ih (c + 1) st

theorem draw_rows_zero_sprite (x y : Nat) :
    ∀ rem r st, (∀ j, j < rem → mem_read st ((st.index + (r + j)) % 65536) = 0) →
      draw_rows x y r rem st = (st, []) := by
  intro rem
  induction rem with
  | zero =>
    intro r st _
    rfl
  | succ rem ih =>
    intro r st hz
    simp only [draw_rows]
    have h0 : mem_read st ((st.index + r) % 65536) = 0 := by
      have := hz 0 (by omega)
      simpa using this
    rw [h0, draw_bits_zero_sprite x y r 8 0 st]
    have hrest : draw_rows x y (r + 1) rem st = (st, []) := by
      apply ih
      intro j hj
      have := hz (j + 1) (by omega)
      have harith : r + 1 + j = r + (j + 1) := by omega
      rw [harith]
      exact this
    rw [hrest]
    rfl

/-- C10 (implicit): a draw whose sprite bytes are all zero changes no variable
register at all; in particular the collision flag register 0xF keeps its
previous value, because the flag is written only when the sprite has a set
bit. -/
theorem c10_zero_sprite_draw (s : Chip8) (x y n : Nat)
    (hz : ∀ j, j < n → mem_read s ((s.index + j) % 65536) = 0) :
    ((display_draw s x y n).1).vars = s.vars ∧
    ((display_draw s x y n).1).vars.getD 0xF 0 = s.vars.getD 0xF 0 ∧
    ((display_draw s x y n).1).grid = s.grid ∧
    (display_draw s x y n).2 = [DispEvent.render_ev] := by
  have h := draw_rows_zero_sprite x y n 0 s (by
    intro j hj
    have := hz j hj
    simpa using this)
  simp [display_draw, h]

/-- C1: after a draw the collision flag register 0xF holds the result of the
last pixel toggle performed (1 iff that toggle erased a lit pixel), not the OR
of all toggles; in particular drawing the one byte sprite 0xFF at an empty
location lights 8 consecutive pixels and leaves register 0xF at 0, and drawing
the same sprite again at the same location turns all 8 pixels back to 0 and
leaves register 0xF at 1. -/
theorem c1_last_toggle_collision (s : Chip8) (x y n : Nat) (h : s.vars.length = 16) :
    ((display_draw s x y n).1.vars.getD 0xF 0 =
      lastCollision (s.vars.getD 0xF 0) (display_draw s x y n).2) ∧
    (decode_and_execute c1_state 0xD011 = Except.ok c1_after1 ∧
      (∀ c, c < 8 → (c1_after1.grid.getD 0 []).getD c 0 = 1) ∧
      c1_after1.vars.getD 0xF 0 = 0 ∧
      decode_and_execute c1_after1 0xD011 = Except.ok c1_after2 ∧
      (∀ c, c < 8 → (c1_after2.grid.getD 0 []).getD c 0 = 0) ∧
      c1_after2.grid = zero_grid ∧
      c1_after2.vars.getD 0xF 0 = 1) := by
  refine ⟨display_draw_vf s x y n h, rfl, by decide, by decide, rfl, by decide, by decide,
    by decide⟩

theorem c1_last_toggle_collision_witness :
    (display_draw initChip8 0 1 1).1.vars.getD 0xF 0 =
      lastCollision (initChip8.vars.getD 0xF 0) (display_draw initChip8 0 1 1).2 :=
  (c1_last_toggle_collision initChip8 0 1 1 (by decide)).1

theorem test_bit7_iff (a : Nat) : (a &&& 0x0080 ≠ 0) ↔ a.testBit 7 = true := by
  rw [show (0x0080 : Nat) = 2 ^ 7 by norm_num, Nat.and_two_pow]
  cases h : a.testBit 7 <;> simp [h]

theorem shifted_bit_eq (byte j : Nat) (hj : j ≤ 7) :
    ((byte <<< j) % 256).testBit 7 = byte.testBit (7 - j) := by
  rw [show (256 : Nat) = 2 ^ 8 by norm_num, Nat.testBit_mod_two_pow, Nat.testBit_shiftLeft]
  have d1 : decide (7 < 8) = true := by decide
  have d2 : decide (j ≤ 7) = true := decide_eq_true hj
  rw [d1, d2]
  simp

theorem shift_chain (a j : Nat) :
    (((a <<< 1) % 256) <<< j) % 256 = (a <<< (j + 1)) % 256 := by
  rw [Nat.shiftLeft_eq, Nat.shiftLeft_eq, Nat.shiftLeft_eq, Nat.mod_mul_mod, Nat.pow_succ]
  ring_nf

theorem and128_mod (a : Nat) : a % 256 &&& 0x0080 = a &&& 0x0080 := by
  rw [show (0x0080 : Nat) = 2 ^ 7 by norm_num, Nat.and_two_pow, Nat.and_two_pow]
  rw [show (256 : Nat) = 2 ^ 8 by norm_num, Nat.testBit_mod_two_pow]
  simp

theorem shifted_bne_eq (byte j : Nat) (hj : j ≤ 7) :
    ((byte <<< j) % 256 &&& 0x0080 != 0) = byte.testBit (7 - j) := by
  rw [← shifted_bit_eq byte j hj]
  rw [show (0x0080 : Nat) = 2 ^ 7 by norm_num, Nat.and_two_pow]
  cases h : ((byte <<< j) % 256).testBit 7 <;> decide

theorem bit_shapes_filter (vx vy r : Nat) :
    ∀ rem c sprite,
      bit_shapes vx vy r c sprite rem =
        ((List.range rem).filter (fun j => (sprite <<< j) % 256 &&& 0x0080 != 0)).map
          (fun j => some ((vx + (c + j)) % 256, (vy + r) % 256)) := by
  intro rem
  induction rem with
  | zero =>
    intro c sprite
    rfl
  | succ rem ih =>
    intro c sprite
    have hp0 : ((sprite <<< 0) % 256 &&& 0x0080) = sprite &&& 0x0080 := by
      rw [Nat.shiftLeft_zero, and128_mod]
    have htail :
        bit_shapes vx vy r (c + 1) ((sprite <<< 1) % 256) rem =
          ((List.range rem).filter
              (fun j => (sprite <<< (j + 1)) % 256 &&& 0x0080 != 0)).map
            (fun j => some ((vx + (c + (j + 1))) % 256, (vy + r) % 256)) := by
      rw [ih (c + 1) ((sprite <<< 1) % 256)]
      rw [List.filter_congr (fun j _ => by rw [shift_chain sprite j])]
      apply List.map_congr_left
      intro j _
      have harith : c + 1 + j = c + (j + 1) := by omega
      rw [harith]
    have hmapped :
        ((List.range rem).filter
            (fun j => ((sprite <<< (j + 1)) % 256 &&& 0x0080 != 0))).map
          (fun j => some ((vx + (c + (j + 1))) % 256, (vy + r) % 256)) =
        ((List.range rem).map Nat.succ |>.filter
            (fun j => ((sprite <<< j) % 256 &&& 0x0080 != 0))).map
          (fun j => some ((vx + (c + j)) % 256, (vy + r) % 256)) := by
      rw [List.filter_map, List.map_map]
      rfl
    rw [List.range_succ_eq_map, List.filter_cons]
    simp only [bit_shapes]
    by_cases hcond : sprite &&& 0x0080 ≠ 0
    · rw [if_pos hcond, if_pos (show ((sprite <<< 0) % 256 &&& 0x0080 != 0) = true by
        rw [hp0]; exact bne_iff_ne.mpr hcond)]
      rw [List.map_cons, htail, hmapped, Nat.add_zero]
    · rw [if_neg hcond, if_neg (show ¬ ((sprite <<< 0) % 256 &&& 0x0080 != 0) = true by
        rw [hp0]; simpa using hcond)]
      rw [htail, hmapped]

theorem bit_shapes_spec (byte vx vy r : Nat) (hvx : vx + 8 ≤ 256) (hvy : vy + r < 256) :
    bit_shapes vx vy r 0 byte 8 = (spec_row_toggles byte vx vy r).map some := by
  rw [bit_shapes_filter vx vy r 8 0 byte, spec_row_toggles]
  rw [List.filter_congr
    (fun j hj => shifted_bne_eq byte j (by have := List.mem_range.mp hj; omega))]
  rw [List.map_map]
  apply List.map_congr_left
  intro j hj
  have hj8 : j < 8 := List.mem_range.mp (List.mem_of_mem_filter hj)
  have hmx : (vx + (0 + j)) % 256 = vx + j := by
    rw [Nat.zero_add]
    exact Nat.mod_eq_of_lt (by omega)
  have hmy : (vy + r) % 256 = vy + r := Nat.mod_eq_of_lt (by omega)
  rw [hmx, hmy]
  rfl

theorem draw_bits_shape (x y r : Nat) (hx : x ≠ 15) (hy : y ≠ 15) :
    ∀ rem c sprite st,
      (draw_bits x y r c sprite rem st).2.map eventShape =
        bit_shapes (st.vars.getD x 0) (st.vars.getD y 0) r c sprite rem := by
  intro rem
  induction rem with
  | zero =>
    intro c sprite st
    rfl
  | succ rem ih =>
    intro c sprite st
    simp only [draw_bits, bit_shapes]
    by_cases hcond : sprite &&& 0x0080 ≠ 0
    · rw [if_pos hcond, if_pos hcond]
      have hvx := (draw_step_frame x y r c st).vreg x hx
      have hvy := (draw_step_frame x y r c st).vreg y hy
      dsimp only
      rw [List.map_cons, ih (c + 1) ((sprite <<< 1) % 256) (draw_step x y r c st).1, hvx, hvy]
      rfl
    · rw [if_neg hcond, if_neg hcond]
      exact ih (c + 1) ((sprite <<< 1) % 256) st

theorem draw_rows_shape (x y : Nat) (hx : x ≠ 15) (hy : y ≠ 15) :
    ∀ rem r st, st.index + (r + rem) ≤ 65536 →
      (draw_rows x y r rem st).2.map eventShape =
        ((List.range rem).map (fun j =>
          bit_shapes (st.vars.getD x 0) (st.vars.getD y 0) (r + j) 0
            (mem_read st (st.index + (r + j))) 8)).flatten := by
  intro rem
  induction rem with
  | zero =>
    intro r st _
    rfl
  | succ rem ih =>
    intro r st hidx
    simp only [draw_rows]
    rw [List.map_append]
    have hmod : (st.index + r) % 65536 = st.index + r := Nat.mod_eq_of_lt (by omega)
    have hfr := draw_bits_frame x y r 8 0 (mem_read st ((st.index + r) % 65536)) st
    rw [draw_bits_shape x y r hx hy 8 0 (mem_read st ((st.index + r) % 65536)) st]
    rw [ih (r + 1) (draw_bits x y r 0 (mem_read st ((st.index + r) % 65536)) 8 st).1
      (by rw [hfr.idx]; omega)]
    have hvx := hfr.vreg x hx
    have hvy := hfr.vreg y hy
    have hmr : ∀ a,
        mem_read (draw_bits x y r 0 (mem_read st ((st.index + r) % 65536)) 8 st).1 a =
          mem_read st a :=
      fun a => congrArg (fun m => List.getD m a 0 % 256) hfr.mem
    simp only [hvx, hvy, hfr.idx, hmr]
    rw [List.range_succ_eq_map, List.map_cons, List.flatten_cons, List.map_map]
    congr 1
    · rw [hmod, Nat.add_zero]
    · congr 1
      apply List.map_congr_left
      intro j _
      have harith : r + 1 + j = r + (j + 1) := by omega
      simp only [Function.comp, harith]

/-- C3: a draw with operands x, y, n reads exactly the n consecutive memory
bytes starting at the index register, treats each byte as 8 horizontal pixels
most significant bit first, toggles the display pixel at
(register x + c, register y + r) exactly for each set bit at sprite row r and
column c, in row major order, and calls the render operation of the display
exactly once, after all rows. -/
theorem c3_draw_sprite (s : Chip8) (x y n : Nat) (hx : x ≠ 15) (hy : y ≠ 15)
    (hidx : s.index + n ≤ 65536) (hvx : s.vars.getD x 0 + 8 ≤ 256)
    (hvy : s.vars.getD y 0 + n ≤ 256) :
    (display_draw s x y n).2.map eventShape = (spec_draw_toggles s x y n).map some ++ [none] := by
  simp only [display_draw]
  rw [List.map_append]
  congr 1
  · rw [draw_rows_shape x y hx hy n 0 s (by omega)]
    rw [spec_draw_toggles, List.map_flatten, List.map_map]
    congr 1
    apply List.map_congr_left
    intro j hj
    have hjn : j < n := List.mem_range.mp hj
    rw [Nat.zero_add]
    exact bit_shapes_spec (mem_read s (s.index + j)) (s.vars.getD x 0) (s.vars.getD y 0) j
      hvx (by omega)

theorem c3_draw_sprite_witness :
    (display_draw c3_demo_state 0 1 2).2.map eventShape =
      (spec_draw_toggles c3_demo_state 0 1 2).map some ++ [none] :=
  c3_draw_sprite c3_demo_state 0 1 2 (by decide) (by decide) (by decide) (by decide) (by decide)

theorem c10_zero_sprite_draw_witness :
    ((display_draw c10_state 0 1 3).1).vars = c10_state.vars ∧
    ((display_draw c10_state 0 1 3).1).vars.getD 0xF 0 = c10_state.vars.getD 0xF 0 ∧
    ((display_draw c10_state 0 1 3).1).grid = c10_state.grid ∧
    (display_draw c10_state 0 1 3).2 = [DispEvent.render_ev] := by
  exact c10_zero_sprite_draw c10_state 0 1 3 (by decide)

end Chip8Emu
